import Mathlib

/-!
Shallow embedding of `similar-images.py`.

This file embeds the core of `src/similar-images.py` (a near-duplicate image
finder) into Lean 4 and proves properties of the embedded functions.

Modelling conventions:
* numpy arrays are flattened lists of pixel values (`List Nat` for the uint8
  data, cast to `List Int` by `astype int`), together with an explicit shape
  tuple (`List Nat`, Python tuples of ints).
* `np.subtract` on two arrays is modelled as requiring equal shapes: the
  normalized arrays produced by `imresize(·, (100, 100))` are `100×100` or
  `100×100×c`, and two such shapes that differ never broadcast, so a shape
  mismatch raises `ValueError` exactly when the shapes are unequal.
* `np.mean` divides the sum by the number of elements, in `ℚ`.
* Python's `float('inf')` result of `get_distance` is a distinguished value
  `DistVal.inf`; `inf < T` is `false` for every threshold `T`.
* file-system reads (`scipy.misc.imread` inside `normalize_image`,
  `os.path.isfile`) are oracles passed in as function arguments, and the
  stream of `uuid.uuid4().hex` draws is a list argument consumed in order.
-/

/-- One entry of the `library` list built by `build_library`:
the Python triple `(path, normalized, shape)`.  The shape of the
`normalized` array is carried explicitly (`normShape`) because the original
images may differ in channel count, which survives `imresize`. -/
structure ImageRecord where
  path : String
  normalized : List Nat
  normShape : List Nat
  shape : List Nat
  deriving Repr, DecidableEq, Inhabited

/-- Model of `astype(int)` on a uint8 array: widen every pixel to a signed integer. -/
def astype_int (a : List Nat) : List Int :=
  a.map (fun x => (x : Int))

/-- Model of `np.subtract` on two equally-shaped (flattened) integer arrays. -/
def np_subtract (a b : List Int) : List Int :=
  List.zipWith (fun x y => x - y) a b

/-- Model of `np.abs`, element-wise absolute value. -/
def np_abs (a : List Int) : List Int :=
  a.map (fun x => |x|)

/-- Model of `np.mean`: sum of the elements divided by their number, as a rational
(`mkRat` is the rational `sum / length`; see `np_mean_eq_div`). -/
def np_mean (a : List Int) : ℚ :=
  mkRat a.sum a.length

theorem np_mean_eq_div (a : List Int) :
    np_mean a = ((a.sum : ℚ)) / ((a.length : ℚ)) := by
  simp [np_mean, Rat.mkRat_eq_div]

/-- Result of `get_distance`: a finite float or `float('inf')`. -/
inductive DistVal where
  | fin (q : ℚ)
  | inf
  deriving Repr, DecidableEq

/-- The comparison `average < max_average` on a `DistVal`;
`float('inf') < T` is `False` for every finite `T`. -/
def DistVal.ltB : DistVal → ℚ → Bool
  | DistVal.fin q, t => decide (q < t)
  | DistVal.inf, _ => false

/-- Model of `get_distance(library, i, j)`: mean absolute pixel-wise difference of the
two normalized arrays after widening to `int`; on a shape mismatch the
`ValueError` of `np.subtract` is caught and `float('inf')` is returned. -/
def get_distance (library : List ImageRecord) (i j : Nat) : DistVal :=
  let r1 := library.getD i default
  let r2 := library.getD j default
  if r1.normShape = r2.normShape then
    DistVal.fin (np_mean (np_abs (np_subtract (astype_int r1.normalized)
      (astype_int r2.normalized))))
  else
    DistVal.inf

/-- Model of `get_doubles_of(library, i, max_average)`: walk `j` over
`range(i+1, len(library))`, zip the distances with `itertools.count(0)`, and
keep the counter value `idx` (NOT the index `j = i+1+idx`) whenever the
distance is strictly below `max_average`. -/
def get_doubles_of (library : List ImageRecord) (i : Nat) (max_average : ℚ) :
    List Nat :=
  (List.range (library.length - (i + 1))).filter
    (fun idx => (get_distance library i (i + 1 + idx)).ltB max_average)

/-- The loop body of `get_doubles` for one value of `i`: skip `i` when it is
contained in the member list of an existing group, otherwise create a group
keyed by `i` when `get_doubles_of` found at least one member. -/
def get_doubles_step (library : List ImageRecord) (max_average : ℚ)
    (doubles : List (Nat × List Nat)) (i : Nat) : List (Nat × List Nat) :=
  if doubles.any (fun p => p.2.contains i) then
    doubles
  else
    let doubles_i := get_doubles_of library i max_average
    if 0 < doubles_i.length then doubles ++ [(i, doubles_i)] else doubles

/-- The loop `for i in range(len(library))` of `get_doubles`, written as a recursion on
the number of remaining iterations: process `i, i+1, …, i+r-1`. -/
def get_doubles_from (library : List ImageRecord) (max_average : ℚ) :
    Nat → Nat → List (Nat × List Nat) → List (Nat × List Nat)
  | _, 0, doubles => doubles
  | i, r + 1, doubles =>
      get_doubles_from library max_average (i + 1) r
        (get_doubles_step library max_average doubles i)

/-- Model of `get_doubles(library, max_average)`: the insertion-ordered dict of
duplicate groups, as an association list (Python dicts preserve insertion
order, and keys are inserted in ascending order of `i`). -/
def get_doubles (library : List ImageRecord) (max_average : ℚ) :
    List (Nat × List Nat) :=
  get_doubles_from library max_average 0 library.length []

/-- Python's `<` on tuples of integers: lexicographic, with a strict prefix
smaller than any longer tuple.  Used on the `original_shape` tuples. -/
def lexLt : List Nat → List Nat → Bool
  | [], [] => false
  | [], _ :: _ => true
  | _ :: _, [] => false
  | a :: as, b :: bs => if a < b then true else if b < a then false else lexLt as bs

/-- The loop of Python's `max(enumerate(iterable), key=lambda x: x[1])`:
`cur` is the position of the head of `shapes` in the original list, `best`
the position of the running maximum `bestv`; the running maximum is replaced
only by a strictly larger value, so ties keep the earliest position. -/
def argmax_go : List (List Nat) → Nat → Nat → List Nat → Nat
  | [], _, best, _ => best
  | v :: rest, cur, best, bestv =>
      if lexLt bestv v then argmax_go rest (cur + 1) cur v
      else argmax_go rest (cur + 1) best bestv

/-- Model of `argmax(iterable)` of the source.  Python's `max` raises on an empty
sequence; the function is only ever applied to `[i] + js`, which is
non-empty, so the `[]` case is unreachable and returns a dummy `0`. -/
def argmax : List (List Nat) → Nat
  | [] => 0
  | v :: rest => argmax_go rest 1 0 v

/-- Python `str.rfind(c)`: index of the last occurrence of `c`, else `-1`. -/
def rfindIdx (c : Char) (s : List Char) : Int :=
  s.enum.foldl (fun acc p => if p.2 = c then (p.1 : Int) else acc) (-1)

/-- Model of `os.path.basename(p)` (posix): everything after the last slash. -/
def basenameL (p : List Char) : List Char :=
  p.drop (rfindIdx '/' p + 1).toNat

/-- Model of `os.path.splitext(p)` (posix): split at the last dot that lies after the
last slash, provided some character of the base name strictly before that
dot is not itself a dot (so names made of leading dots have no extension). -/
def splitextL (p : List Char) : List Char × List Char :=
  let sepIndex := rfindIdx '/' p
  let dotIndex := rfindIdx '.' p
  if sepIndex < dotIndex then
    let start := (sepIndex + 1).toNat
    let dotN := dotIndex.toNat
    if (List.range (dotN - start)).any (fun k => p.getD (start + k) '.' ≠ '.') then
      (p.take dotN, p.drop dotN)
    else (p, [])
  else (p, [])

def basename (p : String) : String := ⟨basenameL p.data⟩

def splitext (p : String) : String × String :=
  let r := splitextL p.data
  (⟨r.1⟩, ⟨r.2⟩)

/-- Model of `os.path.join(a, b)` (posix, two arguments): `b` absolute replaces `a`;
otherwise a separator is inserted unless `a` is empty or ends in one. -/
def joinPath (a b : String) : String :=
  if b.data.head? = some '/' then b
  else if a.data = [] ∨ a.data.getLast? = some '/' then a ++ b
  else a ++ "/" ++ b

/-- The `while os.path.isfile(destination)` loop of `find_best_in_set`:
as long as the oracle reports a file at `d`, draw the next token from the
`uuid.uuid4().hex` stream and retry with `join(move_to, token + ext)` where
`ext` is the extension of the source file `filename_move`.  The stream is a
finite list here, so an exhausted stream yields `none` (the Python loop
would keep drawing fresh random tokens). -/
def assignLoop (isfile : String → Bool) (move_to filename_move : String) :
    List String → String → Option (String × List String)
  | uuids, d =>
      if isfile d then
        match uuids with
        | [] => none
        | u :: rest =>
            assignLoop isfile move_to filename_move rest
              (joinPath move_to (u ++ (splitext filename_move).2))
      else some (d, uuids)

/-- Destination assignment for one removal candidate: start from
`join(move_to, basename(filename_move))` and run the collision loop. -/
def assignDestination (isfile : String → Bool) (uuids : List String)
    (move_to filename_move : String) : Option (String × List String) :=
  assignLoop isfile move_to filename_move uuids
    (joinPath move_to (basename filename_move))

/-- The inner `for candidate_id in candidate_ids` loop of
`find_best_in_set`: look up the candidate's path, form the destination and
append the `(source, destination)` pair.  `os.path.join(None, …)` raises a
`TypeError`, modelled as an `Except.error`; the `montage`/`imsave` proof
artifacts are external side effects outside the move list. -/
def process_candidates (library : List ImageRecord) (move_to : Option String)
    (isfile : String → Bool) :
    List Nat → List String → List (String × String) →
    Except String (List (String × String) × List String)
  | [], uuids, moves => Except.ok (moves, uuids)
  | candidate_id :: rest, uuids, moves =>
      let filename_move := (library.getD candidate_id default).path
      match move_to with
      | none => Except.error "TypeError: join() argument must not be None"
      | some mt =>
          match assignDestination isfile uuids mt filename_move with
          | none => Except.error "uuid stream exhausted"
          | some (destination, uuidsLeft) =>
              process_candidates library move_to isfile rest uuidsLeft
                (moves ++ [(filename_move, destination)])

/-- The outer `for i, js in doubles.items()` loop of `find_best_in_set`:
candidates are `[i] + js`, the kept one is at `argmax` of their
`original_shape` tuples, `del candidate_ids[best_idx]` leaves the removal
candidates, which are then processed in order. -/
def process_groups (library : List ImageRecord) (move_to : Option String)
    (isfile : String → Bool) :
    List (Nat × List Nat) → List String → List (String × String) →
    Except String (List (String × String) × List String)
  | [], uuids, moves => Except.ok (moves, uuids)
  | (i, js) :: rest, uuids, moves =>
      let candidate_ids := i :: js
      let shapes := candidate_ids.map (fun c => (library.getD c default).shape)
      let best_idx := argmax shapes
      let moved_ids := candidate_ids.eraseIdx best_idx
      match process_candidates library move_to isfile moved_ids uuids moves with
      | Except.error e => Except.error e
      | Except.ok (movesAcc, uuidsLeft) =>
          process_groups library move_to isfile rest uuidsLeft movesAcc

/-- Model of `find_best_in_set(doubles, library, move_to)`: the list of recorded
`(source, destination)` moves, or the uncaught exception that aborts it. -/
def find_best_in_set (doubles : List (Nat × List Nat))
    (library : List ImageRecord) (move_to : Option String)
    (isfile : String → Bool) (uuids : List String) :
    Except String (List (String × String)) :=
  (process_groups library move_to isfile doubles uuids []).map (fun r => r.1)

/-- The body of the `for path in paths[:limit]` loop of `build_library`:
a failed `normalize_image` appends its error, a successful one appends the
record `(path, normalized, shape)`. -/
def build_step (load : String → Except String (List Nat × List Nat × List Nat))
    (acc : List ImageRecord × List String) (path : String) :
    List ImageRecord × List String :=
  match load path with
  | Except.error e => (acc.1, acc.2 ++ [e])
  | Except.ok (normalized, normShape, shape) =>
      (acc.1 ++ [⟨path, normalized, normShape, shape⟩], acc.2)

/-- Model of `build_library(paths, limit)`: `normalize_image` is abstracted as the
`load` oracle which either returns the triple
`(normalized, shape-of-normalized, original shape)` or the message of the
`ValueError`/`OSError` it raised.  A `None` limit means all paths. -/
def build_library (load : String → Except String (List Nat × List Nat × List Nat))
    (paths : List String) (limit : Option Nat) :
    List ImageRecord × List String :=
  (paths.take (limit.getD paths.length)).foldl (build_step load) ([], [])

/-- The phase functions of the pipeline (each prints a banner when run). -/
inductive Phase where
  | traversePaths
  | readImages
  | findDuplicates
  | findBestInSet
  | storeMoveScript
  | generateHistogram
  deriving DecidableEq, Repr

/-- The sequence of phases `main` invokes, in source order:
`get_all_files`, `build_library`, `get_doubles`, `find_best_in_set`,
`store_move_commands`.  `generate_histogram` is defined in the source file
but never called from `main`. -/
def mainPhases : List Phase :=
  [Phase.traversePaths, Phase.readImages, Phase.findDuplicates,
   Phase.findBestInSet, Phase.storeMoveScript]

/-- The pyplot state touched by `generate_histogram`: the y-axis scale, the
x-axis limits, and the files saved so far, each with the axis state at the
moment of saving. -/
structure PlotState where
  yscaleLog : Bool
  xlim : Option (Int × Int)
  saved : List (String × Bool × Option (Int × Int))
  deriving DecidableEq, Repr

/-- Model of `pl.savefig(filename)`: record the file with the current axis state. -/
def savefig (filename : String) (s : PlotState) : PlotState :=
  { s with saved := s.saved ++ [(filename, s.yscaleLog, s.xlim)] }

/-- Model of `generate_histogram(averages)`: `pl.hist`, `pl.grid` and the `ylim`
adjustment do not affect the modelled axis state; then `yscale('log')`,
`savefig('hist.pdf')`, `xlim(-1, 50)`, `savefig('hist-50.pdf')`. -/
def generate_histogram (_averages : List ℚ) : PlotState :=
  let s0 : PlotState := ⟨false, none, []⟩
  let s1 : PlotState := { s0 with yscaleLog := true }
  let s2 := savefig "hist.pdf" s1
  let s3 : PlotState := { s2 with xlim := some (-1, 50) }
  savefig "hist-50.pdf" s3

/-- A two-image library whose normalized arrays are identical single pixels:
the smallest input on which `get_doubles` finds a duplicate pair. -/
def demoLib2 : List ImageRecord :=
  [⟨"a.png", [7], [1], [10, 20]⟩, ⟨"b.png", [7], [1], [10, 20]⟩]

/-- Four one-pixel images: two pairs of exact duplicates, the pairs far
apart, producing the two groups `[(0, [0]), (2, [0])]`. -/
def demoLib4 : List ImageRecord :=
  [⟨"a.png", [0], [1], [10, 20]⟩, ⟨"b.png", [0], [1], [10, 20]⟩,
   ⟨"c.png", [100], [1], [10, 20]⟩, ⟨"d.png", [100], [1], [10, 20]⟩]

/-- Three records with the `original_shape` tuples of the claim:
`(10, 20)`, `(20, 10)`, `(15, 15)`. -/
def demoLib3 : List ImageRecord :=
  [⟨"pics/a.jpg", [0], [1], [10, 20]⟩,
   ⟨"pics/b.jpg", [0], [1], [20, 10]⟩,
   ⟨"pics/c.jpg", [0], [1], [15, 15]⟩]

/-- Three records whose paths share the base name `x.jpg`; the first has the
largest shape and is kept. -/
def demoLibBase : List ImageRecord :=
  [⟨"a/x.jpg", [0], [1], [20, 10]⟩,
   ⟨"b/x.jpg", [0], [1], [10, 10]⟩,
   ⟨"c/x.jpg", [0], [1], [10, 9]⟩]

/-- Two one-pixel records whose normalized arrays have different shapes
(different channel counts), so the pair is incomparable. -/
def demoLibMismatch : List ImageRecord :=
  [⟨"a.png", [7], [1], [10, 20]⟩, ⟨"b.png", [7, 7], [1, 2], [10, 20]⟩]

/-!
Section: Properties of the tuple order and of `argmax`
-/

theorem lexLt_irrefl (a : List Nat) : lexLt a a = false := by
  induction a with
  | nil => rfl
  | cons x xs ih => simp [lexLt, ih]

theorem lexLt_cons_iff (x y : Nat) (xs ys : List Nat) :
    lexLt (x :: xs) (y :: ys) = true ↔
      x < y ∨ (x = y ∧ lexLt xs ys = true) := by
  simp only [lexLt]
  split_ifs with h1 h2
  · simp [h1]
  · constructor
    · intro hf; simp at hf
    · rintro (h | ⟨h, _⟩)
      · exact absurd h h1
      · omega
  · have hxy : x = y := by omega
    subst hxy
    simp

theorem lexLt_trans : ∀ {a b c : List Nat},
    lexLt a b = true → lexLt b c = true → lexLt a c = true := by
  intro a
  induction a with
  | nil =>
    intro b c h1 h2
    cases b with
    | nil => simp [lexLt] at h1
    | cons y ys =>
      cases c with
      | nil => simp [lexLt] at h2
      | cons z zs => rfl
  | cons x xs ih =>
    intro b c h1 h2
    cases b with
    | nil => simp [lexLt] at h1
    | cons y ys =>
      cases c with
      | nil => simp [lexLt] at h2
      | cons z zs =>
        rw [lexLt_cons_iff] at h1 h2 ⊢
        rcases h1 with h1 | ⟨h1, h1t⟩ <;> rcases h2 with h2 | ⟨h2, h2t⟩
        · exact Or.inl (by omega)
        · exact Or.inl (by omega)
        · exact Or.inl (by omega)
        · exact Or.inr ⟨by omega, ih h1t h2t⟩

/-- Specification of the `max(enumerate(…), key=…)` loop: starting from a
running best at position `b < m` that dominates every position below `m`,
the result is a position of the whole list whose value no element
strictly exceeds. -/
theorem argmax_go_spec (l : List (List Nat)) :
    ∀ (s : List (List Nat)) (m b : Nat), l.drop m = s → b < m → m ≤ l.length →
      (∀ k, k < m → lexLt (l.getD b []) (l.getD k []) = false) →
      argmax_go s m b (l.getD b []) < l.length ∧
      ∀ k, k < l.length →
        lexLt (l.getD (argmax_go s m b (l.getD b [])) []) (l.getD k []) = false := by
  intro s
  induction s with
  | nil =>
    intro m b hdrop hbm hml hinv
    have hlen : l.length ≤ m := by
      have := congrArg List.length hdrop
      simp at this
      omega
    have hm : m = l.length := le_antisymm hml hlen
    subst hm
    exact ⟨by simpa [argmax_go] using hbm, by simpa [argmax_go] using hinv⟩
  | cons v rest ih =>
    intro m b hdrop hbm hml hinv
    have hmlt : m < l.length := by
      have := congrArg List.length hdrop
      simp at this
      omega
    have hv : l.getD m [] = v := by
      have h0 : (l.drop m)[0]? = some v := by rw [hdrop]; simp
      rw [List.getElem?_drop, Nat.add_zero] at h0
      simp [List.getD_eq_getElem?_getD, h0]
    have hrest : l.drop (m + 1) = rest := by
      rw [← List.tail_drop, hdrop]; rfl
    simp only [argmax_go]
    split
    next hcmp =>
      rw [← hv] at hcmp ⊢
      refine ih (m + 1) m hrest (by omega) (by omega) ?_
      intro k hk
      rcases Nat.lt_or_ge k m with hkm | hkm
      · by_contra hc
        rw [Bool.not_eq_false] at hc
        have hfalse := hinv k hkm
        rw [lexLt_trans hcmp hc] at hfalse
        simp at hfalse
      · have hkm2 : k = m := by omega
        subst hkm2
        exact lexLt_irrefl _
    next hcmp =>
      refine ih (m + 1) b hrest (by omega) (by omega) ?_
      intro k hk
      rcases Nat.lt_or_ge k m with hkm | hkm
      · exact hinv k hkm
      · have hkm2 : k = m := by omega
        subst hkm2
        rw [hv]
        simpa using hcmp

/-- The function `argmax` on a non-empty list returns a valid position whose value no
element of the list strictly exceeds in the tuple order. -/
theorem argmax_spec (v : List Nat) (rest : List (List Nat)) :
    argmax (v :: rest) < (v :: rest).length ∧
    ∀ k, k < (v :: rest).length →
      lexLt ((v :: rest).getD (argmax (v :: rest)) [])
        ((v :: rest).getD k []) = false := by
  have h0 : (v :: rest).getD 0 [] = v := rfl
  have hdrop : (v :: rest).drop 1 = rest := rfl
  have hinv : ∀ k, k < 1 → lexLt ((v :: rest).getD 0 [])
      ((v :: rest).getD k []) = false := by
    intro k hk
    have : k = 0 := by omega
    subst this
    exact lexLt_irrefl _
  have := argmax_go_spec (v :: rest) rest 1 0 hdrop (by omega) (by simp) hinv
  rw [h0] at this
  exact this

/-!
Section: The invariant of the `get_doubles` loop
-/

/-- State invariant of the `get_doubles` accumulator after the loop has run
for `0, …, i-1`: all keys are below `i` and strictly increasing along the
list, every group's member list is exactly `get_doubles_of` of its key and
is non-empty, and no group member equals the key of a group with a
strictly larger key. -/
def DoublesInv (library : List ImageRecord) (T : ℚ) (i : Nat)
    (doubles : List (Nat × List Nat)) : Prop :=
  (∀ p ∈ doubles, p.1 < i) ∧
  (∀ p ∈ doubles, p.2 = get_doubles_of library p.1 T ∧ p.2 ≠ []) ∧
  (∀ p ∈ doubles, ∀ q ∈ doubles, q.1 ∈ p.2 → q.1 ≤ p.1) ∧
  doubles.Pairwise (fun p q => p.1 < q.1)

theorem get_doubles_step_inv {library : List ImageRecord} {T : ℚ} {i : Nat}
    {doubles : List (Nat × List Nat)} (h : DoublesInv library T i doubles) :
    DoublesInv library T (i + 1) (get_doubles_step library T doubles i) := by
  obtain ⟨h1, h2, h3, h4⟩ := h
  have hmono : DoublesInv library T (i + 1) doubles :=
    ⟨fun p hp => Nat.lt_succ_of_lt (h1 p hp), h2, h3, h4⟩
  unfold get_doubles_step
  split
  next => exact hmono
  next hskip =>
    have hnotmem : ∀ p ∈ doubles, i ∉ p.2 := by
      intro p hp hmem
      exact hskip (List.any_eq_true.mpr ⟨p, hp, by simpa using hmem⟩)
    dsimp only
    split
    next hlen =>
      refine ⟨?_, ?_, ?_, ?_⟩
      · intro p hp
        rcases List.mem_append.mp hp with hp | hp
        · exact Nat.lt_succ_of_lt (h1 p hp)
        · rw [List.mem_singleton] at hp
          subst hp
          exact Nat.lt_succ_self i
      · intro p hp
        rcases List.mem_append.mp hp with hp | hp
        · exact h2 p hp
        · rw [List.mem_singleton] at hp
          subst hp
          exact ⟨rfl, List.ne_nil_of_length_pos hlen⟩
      · intro p hp q hq hmem
        rcases List.mem_append.mp hp with hp | hp <;>
          rcases List.mem_append.mp hq with hq | hq
        · exact h3 p hp q hq hmem
        · rw [List.mem_singleton] at hq
          subst hq
          exact absurd hmem (hnotmem p hp)
        · rw [List.mem_singleton] at hp
          subst hp
          exact Nat.le_of_lt (h1 q hq)
        · rw [List.mem_singleton] at hp
          rw [List.mem_singleton] at hq
          subst hp
          subst hq
          exact le_refl _
      · rw [List.pairwise_append]
        refine ⟨h4, List.pairwise_singleton _ _, ?_⟩
        intro p hp q hq
        rw [List.mem_singleton] at hq
        subst hq
        exact h1 p hp
    next => exact hmono

theorem get_doubles_from_inv {library : List ImageRecord} {T : ℚ} :
    ∀ (r i : Nat) (doubles : List (Nat × List Nat)),
      DoublesInv library T i doubles →
      DoublesInv library T (i + r) (get_doubles_from library T i r doubles) := by
  intro r
  induction r with
  | zero => intro i doubles h; simpa [get_doubles_from] using h
  | succ n ih =>
    intro i doubles h
    have := ih (i + 1) (get_doubles_step library T doubles i)
      (get_doubles_step_inv h)
    rw [show i + 1 + n = i + (n + 1) by omega] at this
    simpa [get_doubles_from] using this

/-- The invariant holds of the final result of `get_doubles`. -/
theorem get_doubles_inv (library : List ImageRecord) (T : ℚ) :
    DoublesInv library T library.length (get_doubles library T) := by
  have h0 : DoublesInv library T 0 [] := by
    refine ⟨?_, ?_, ?_, ?_⟩ <;> simp
  have := get_doubles_from_inv library.length 0 [] h0
  simpa [get_doubles] using this

/-!
Section: The destination-assignment loop
-/

theorem assignLoop_spec (isfile : String → Bool) (move_to filename_move : String) :
    ∀ (uuids : List String) (d0 d : String) (rest : List String),
      assignLoop isfile move_to filename_move uuids d0 = some (d, rest) →
      isfile d = false ∧
      (d = d0 ∨ ∃ u ∈ uuids, d = joinPath move_to (u ++ (splitext filename_move).2)) := by
  intro uuids
  induction uuids with
  | nil =>
    intro d0 d rest h
    rw [assignLoop] at h
    split at h
    next => simp at h
    next hfile =>
      simp only [Option.some.injEq, Prod.mk.injEq] at h
      obtain ⟨hd, -⟩ := h
      subst hd
      exact ⟨by simpa using hfile, Or.inl rfl⟩
  | cons u us ih =>
    intro d0 d rest h
    rw [assignLoop] at h
    split at h
    next =>
      obtain ⟨hfe, hor⟩ := ih (joinPath move_to (u ++ (splitext filename_move).2)) d rest h
      refine ⟨hfe, Or.inr ?_⟩
      rcases hor with hd | ⟨u2, hu2, hd⟩
      · exact ⟨u, List.mem_cons_self u us, hd⟩
      · exact ⟨u2, List.mem_cons_of_mem _ hu2, hd⟩
    next hfile =>
      simp only [Option.some.injEq, Prod.mk.injEq] at h
      obtain ⟨hd, -⟩ := h
      subst hd
      exact ⟨by simpa using hfile, Or.inl rfl⟩

/-!
Section: Arithmetic facts about the distance value
-/

theorem np_abs_sum_nonneg (a : List Int) : 0 ≤ (np_abs a).sum := by
  refine List.sum_nonneg ?_
  intro x hx
  obtain ⟨y, -, rfl⟩ := List.mem_map.mp hx
  exact abs_nonneg y

theorem np_mean_abs_nonneg (a : List Int) : 0 ≤ np_mean (np_abs a) := by
  rw [np_mean_eq_div]
  apply div_nonneg
  · exact_mod_cast np_abs_sum_nonneg a
  · exact Nat.cast_nonneg _

theorem np_abs_sub_self (a : List Int) : (np_abs (np_subtract a a)).sum = 0 := by
  induction a with
  | nil => rfl
  | cons x xs ih =>
    simp only [np_abs, np_subtract] at ih ⊢
    simp [ih]

theorem np_abs_sub_comm : ∀ (a b : List Int),
    np_abs (np_subtract a b) = np_abs (np_subtract b a) := by
  intro a
  induction a with
  | nil => intro b; cases b <;> rfl
  | cons x xs ih =>
    intro b
    cases b with
    | nil => rfl
    | cons y ys =>
      simp only [np_abs, np_subtract, List.zipWith_cons_cons, List.map_cons]
      rw [abs_sub_comm]
      have := ih ys
      simp only [np_abs, np_subtract] at this
      rw [this]

/-!
Section: The fold of `build_library`
-/

/-- The record a path contributes to the library, when it loads. -/
def loadRecord (load : String → Except String (List Nat × List Nat × List Nat))
    (path : String) : Option ImageRecord :=
  match load path with
  | Except.ok (normalized, normShape, shape) =>
      some ⟨path, normalized, normShape, shape⟩
  | Except.error _ => none

/-- The error message a path contributes, when it fails to load. -/
def loadErr (load : String → Except String (List Nat × List Nat × List Nat))
    (path : String) : Option String :=
  match load path with
  | Except.ok _ => none
  | Except.error e => some e

theorem build_fold (load : String → Except String (List Nat × List Nat × List Nat)) :
    ∀ (paths : List String) (acc : List ImageRecord × List String),
      paths.foldl (build_step load) acc =
        (acc.1 ++ paths.filterMap (loadRecord load),
         acc.2 ++ paths.filterMap (loadErr load)) := by
  intro paths
  induction paths with
  | nil => intro acc; simp
  | cons p ps ih =>
    intro acc
    rw [List.foldl_cons, ih]
    cases hl : load p with
    | error e =>
      simp [build_step, loadRecord, loadErr, hl, List.filterMap_cons]
    | ok t =>
      obtain ⟨n, ns, s⟩ := t
      simp [build_step, loadRecord, loadErr, hl, List.filterMap_cons]

/-- A loader on which exactly one of the five `demoPaths` fails. -/
def demoLoad (path : String) : Except String (List Nat × List Nat × List Nat) :=
  if path = "bad.png" then Except.error "OSError: cannot identify image file"
  else Except.ok ([0], [1], [8, 8])

def demoPaths : List String :=
  ["p1.png", "p2.png", "bad.png", "p3.png", "p4.png"]

/-!
Section: The claims
-/

/-- C1: evaluation of `get_doubles` at the failing input `demoLib2` (two
identical images).  The group keyed `0` stores the member value `0` — the
`itertools.count(0)` offset `j - (i+1)` — rather than the compared library
index `j = 1` that the claim asserts, so the group does not consist of the
indices `j > i` within threshold. -/
theorem c1_group_members_are_offsets :
    get_doubles demoLib2 2 = [(0, [0])] ∧
    get_doubles demoLib2 2 ≠ [(0, [1])] :=
  ⟨by decide, by decide⟩

/-- C2: the duplicate mapping lists its groups in strictly increasing key
order, and no index is both a member value of one group and the key of a
later (larger-key) group. -/
theorem c2_member_never_later_key (library : List ImageRecord) (T : ℚ) :
    (get_doubles library T).Pairwise (fun p q => p.1 < q.1) ∧
    ∀ p ∈ get_doubles library T, ∀ q ∈ get_doubles library T,
      p.1 < q.1 → q.1 ∉ p.2 := by
  obtain ⟨-, -, h3, h4⟩ := get_doubles_inv library T
  refine ⟨h4, ?_⟩
  intro p hp q hq hlt hmem
  have := h3 p hp q hq hmem
  omega

/-- C2 witness: on `demoLib4` the mapping has groups keyed `0` and `2`, and
the later key `2` is not a member of the earlier group. -/
theorem c2_member_never_later_key_witness :
    (0, [0]) ∈ get_doubles demoLib4 2 ∧
    (2, [0]) ∈ get_doubles demoLib4 2 ∧
    (2 : Nat) ∉ ([0] : List Nat) :=
  ⟨by decide, by decide,
    (c2_member_never_later_key demoLib4 2).2 (0, [0]) (by decide)
      (2, [0]) (by decide) (by decide)⟩

/-- C3: `argmax` picks a valid position whose shape no candidate shape
strictly exceeds in Python's tuple order; on the shapes `(10,20)`,
`(20,10)`, `(15,15)` it picks position 1 (shape `(20,10)`), and
`find_best_in_set` marks exactly the other two candidates for removal. -/
theorem c3_keep_lex_largest_shape :
    (∀ (v : List Nat) (rest : List (List Nat)) (k : Nat),
        k < (v :: rest).length →
        argmax (v :: rest) < (v :: rest).length ∧
        lexLt ((v :: rest).getD (argmax (v :: rest)) [])
          ((v :: rest).getD k []) = false) ∧
    argmax [[10, 20], [20, 10], [15, 15]] = 1 ∧
    find_best_in_set [(0, [1, 2])] demoLib3 (some "mt") (fun _ => false) [] =
      Except.ok [("pics/a.jpg", "mt/a.jpg"), ("pics/c.jpg", "mt/c.jpg")] := by
  refine ⟨?_, by decide, rfl⟩
  intro v rest k hk
  exact ⟨(argmax_spec v rest).1, (argmax_spec v rest).2 k hk⟩

/-- C3 witness: the general part instantiated at the claim's shape list and
position 2. -/
theorem c3_keep_lex_largest_shape_witness :
    (2 : Nat) < ([[10, 20], [20, 10], [15, 15]] : List (List Nat)).length ∧
    argmax [[10, 20], [20, 10], [15, 15]] < 3 ∧
    lexLt (([[10, 20], [20, 10], [15, 15]] : List (List Nat)).getD
        (argmax [[10, 20], [20, 10], [15, 15]]) [])
      (([[10, 20], [20, 10], [15, 15]] : List (List Nat)).getD 2 []) = false := by
  have h := c3_keep_lex_largest_shape.1 [10, 20] [[20, 10], [15, 15]] 2 (by decide)
  exact ⟨by decide, h.1, h.2⟩

/-- C4: for comparable normalized arrays the distance is a finite value
equal to the mean of the absolute differences of the integer-widened
pixels (sum of `|a - b|` over `ℤ`, divided by the element count), and that
value is non-negative. -/
theorem c4_distance_is_mean_abs_of_widened (library : List ImageRecord)
    (i j : Nat)
    (h : (library.getD i default).normShape = (library.getD j default).normShape) :
    ∃ q : ℚ,
      get_distance library i j = DistVal.fin q ∧
      q = (((np_abs (np_subtract (astype_int (library.getD i default).normalized)
              (astype_int (library.getD j default).normalized))).sum : ℚ)) /
          (((np_abs (np_subtract (astype_int (library.getD i default).normalized)
              (astype_int (library.getD j default).normalized))).length : ℚ)) ∧
      0 ≤ q := by
  refine ⟨np_mean (np_abs (np_subtract
      (astype_int (library.getD i default).normalized)
      (astype_int (library.getD j default).normalized))), ?_, ?_, ?_⟩
  · simp only [get_distance]
    rw [if_pos h]
  · exact np_mean_eq_div _
  · exact np_mean_abs_nonneg _

/-- C4 witness: the theorem applied to the comparable pair of `demoLib2`. -/
theorem c4_distance_is_mean_abs_of_widened_witness :
    (demoLib2.getD 0 default).normShape = (demoLib2.getD 1 default).normShape ∧
    ∃ q : ℚ,
      get_distance demoLib2 0 1 = DistVal.fin q ∧
      q = (((np_abs (np_subtract (astype_int (demoLib2.getD 0 default).normalized)
              (astype_int (demoLib2.getD 1 default).normalized))).sum : ℚ)) /
          (((np_abs (np_subtract (astype_int (demoLib2.getD 0 default).normalized)
              (astype_int (demoLib2.getD 1 default).normalized))).length : ℚ)) ∧
      0 ≤ q :=
  ⟨rfl, c4_distance_is_mean_abs_of_widened demoLib2 0 1 rfl⟩

/-- C5: a pair with mismatched normalized shapes gets distance
`float('inf')`, which is below no threshold, so the pair's offset joins no
group of `get_doubles_of` or of the final mapping; the surrounding batch is
unaffected since the distance call returns normally. -/
theorem c5_incomparable_pair_never_grouped (library : List ImageRecord)
    (T : ℚ) (i j : Nat)
    (hmis : (library.getD i default).normShape ≠ (library.getD j default).normShape)
    (hij : i < j) :
    get_distance library i j = DistVal.inf ∧
    (get_distance library i j).ltB T = false ∧
    (j - i - 1) ∉ get_doubles_of library i T ∧
    (∀ ms, (i, ms) ∈ get_doubles library T → (j - i - 1) ∉ ms) := by
  have hinf : get_distance library i j = DistVal.inf := by
    simp only [get_distance]
    rw [if_neg hmis]
  have hnot : (j - i - 1) ∉ get_doubles_of library i T := by
    intro hmem
    rw [get_doubles_of, List.mem_filter] at hmem
    obtain ⟨-, hlt⟩ := hmem
    rw [show i + 1 + (j - i - 1) = j by omega, hinf] at hlt
    simp [DistVal.ltB] at hlt
  refine ⟨hinf, by rw [hinf]; rfl, hnot, ?_⟩
  intro ms hms hmem
  obtain ⟨-, h2, -, -⟩ := get_doubles_inv library T
  have hexact := (h2 (i, ms) hms).1
  simp only at hexact
  subst hexact
  exact hnot hmem

/-- C5 witness: the theorem applied to the mismatched pair of
`demoLibMismatch` (offset `j - i - 1 = 0`). -/
theorem c5_incomparable_pair_never_grouped_witness :
    (demoLibMismatch.getD 0 default).normShape ≠
      (demoLibMismatch.getD 1 default).normShape ∧
    get_distance demoLibMismatch 0 1 = DistVal.inf ∧
    (get_distance demoLibMismatch 0 1).ltB 2 = false ∧
    (0 : Nat) ∉ get_doubles_of demoLibMismatch 0 2 ∧
    (∀ ms, (0, ms) ∈ get_doubles demoLibMismatch 2 → (0 : Nat) ∉ ms) := by
  have h := c5_incomparable_pair_never_grouped demoLibMismatch 2 0 1
    (by decide) (by decide)
  exact ⟨by decide, h.1, h.2.1, h.2.2.1, h.2.2.2⟩

/-- C6 counterexample: with an empty filesystem and two removal candidates
whose paths share the base name `x.jpg`, both recorded moves get the same
destination `mt/x.jpg`, so destinations are NOT unique among the move set. -/
theorem c6_duplicate_destination_counterexample :
    find_best_in_set [(0, [1, 2])] demoLibBase (some "mt") (fun _ => false) [] =
      Except.ok [("b/x.jpg", "mt/x.jpg"), ("c/x.jpg", "mt/x.jpg")] ∧
    ¬ (([("b/x.jpg", "mt/x.jpg"), ("c/x.jpg", "mt/x.jpg")] :
        List (String × String)).map Prod.snd).Nodup :=
  ⟨rfl, by decide⟩

/-- C6 (amended): an assigned destination is never a path at which the
filesystem oracle reports an existing file, and when the collision loop
regenerated it, it is a token drawn from the uuid stream with the source
file's extension appended. -/
theorem c6_destination_fresh_and_ext_preserved (isfile : String → Bool)
    (uuids : List String) (move_to filename_move d : String)
    (rest : List String)
    (h : assignDestination isfile uuids move_to filename_move = some (d, rest)) :
    isfile d = false ∧
    (d = joinPath move_to (basename filename_move) ∨
     ∃ u ∈ uuids, d = joinPath move_to (u ++ (splitext filename_move).2)) :=
  assignLoop_spec isfile move_to filename_move uuids
    (joinPath move_to (basename filename_move)) d rest h

/-- C6 witness: with `mt/x.jpg` occupied, the regenerated destination
`mt/u1.jpg` is fresh and keeps the `.jpg` extension of `b/x.jpg`. -/
theorem c6_destination_fresh_and_ext_preserved_witness :
    assignDestination (fun s => decide (s = "mt/x.jpg")) ["u1"] "mt" "b/x.jpg" =
      some ("mt/u1.jpg", []) ∧
    (fun s => decide (s = "mt/x.jpg")) "mt/u1.jpg" = false ∧
    ("mt/u1.jpg" = joinPath "mt" (basename "b/x.jpg") ∨
     ∃ u ∈ ["u1"], "mt/u1.jpg" = joinPath "mt" (u ++ (splitext "b/x.jpg").2)) := by
  have h := c6_destination_fresh_and_ext_preserved
    (fun s => decide (s = "mt/x.jpg")) ["u1"] "mt" "b/x.jpg" "mt/u1.jpg" [] rfl
  exact ⟨rfl, h.1, h.2⟩

/-- C7: distance of a record to itself is the finite value `0`, and the
distance is symmetric in its two indices. -/
theorem c7_distance_self_zero_and_symmetric (library : List ImageRecord)
    (i j : Nat)
    (hvalid : (library.getD i default).normalized ≠ [])
    (hshape : (library.getD i default).normShape = (library.getD j default).normShape) :
    get_distance library i i = DistVal.fin 0 ∧
    get_distance library i j = get_distance library j i := by
  constructor
  · have hz : np_mean (np_abs (np_subtract
        (astype_int (library.getD i default).normalized)
        (astype_int (library.getD i default).normalized))) = 0 := by
      rw [np_mean_eq_div, np_abs_sub_self]
      simp
    simp only [get_distance]
    split
    next => exact congrArg DistVal.fin hz
    next hc => simp at hc
  · have hsymm := np_abs_sub_comm
      (astype_int (library.getD i default).normalized)
      (astype_int (library.getD j default).normalized)
    simp only [get_distance]
    split
    next =>
      split
      next => exact congrArg (fun z => DistVal.fin (np_mean z)) hsymm
      next hc => exact absurd hshape.symm hc
    next hc => exact absurd hshape hc

/-- C7 witness: the theorem applied to the pair of `demoLib2`. -/
theorem c7_distance_self_zero_and_symmetric_witness :
    (demoLib2.getD 0 default).normalized ≠ [] ∧
    get_distance demoLib2 0 0 = DistVal.fin 0 ∧
    get_distance demoLib2 0 1 = get_distance demoLib2 1 0 := by
  have h := c7_distance_self_zero_and_symmetric demoLib2 0 1 (by decide) rfl
  exact ⟨by decide, h.1, h.2⟩

/-- C8: the library built from `paths` is the subsequence (in input order,
no holes) of the successfully loaded files among the first `limit`, the
error list collects exactly the failures, and with one unreadable file
among five the library has 4 records and 1 recorded error. -/
theorem c8_failed_loads_skipped
    (load : String → Except String (List Nat × List Nat × List Nat))
    (paths : List String) (limit : Option Nat) :
    (build_library load paths limit).1 =
      (paths.take (limit.getD paths.length)).filterMap (loadRecord load) ∧
    (build_library load paths limit).2 =
      (paths.take (limit.getD paths.length)).filterMap (loadErr load) ∧
    (build_library demoLoad demoPaths none).1.length = 4 ∧
    (build_library demoLoad demoPaths none).2.length = 1 := by
  refine ⟨?_, ?_, rfl, rfl⟩
  · rw [build_library, build_fold load]
    simp
  · rw [build_library, build_fold load]
    simp

/-- C9 counterexample: `main` invokes the phases traverse, read, find
duplicates, find best, store moves — `generate_histogram` is not among
them, so a complete run writes no histogram files. -/
theorem c9_main_never_generates_histogram :
    Phase.generateHistogram ∉ mainPhases := by decide

/-- C9 (amended): the `generate_histogram` routine, when invoked, saves
exactly `hist.pdf` (full range) and `hist-50.pdf` (x limited to `[-1, 50]`),
both on a logarithmic y scale — but `main` never invokes it. -/
theorem c9_histogram_routine_uncalled (averages : List ℚ) :
    (generate_histogram averages).saved =
      [("hist.pdf", true, none), ("hist-50.pdf", true, some (-1, 50))] ∧
    Phase.generateHistogram ∉ mainPhases :=
  ⟨rfl, by decide⟩

/-- C10: with `--moveto` left at its `None` default, `find_best_in_set` on a
non-empty duplicate mapping produced by the clusterer raises the
`TypeError` of `os.path.join(None, …)` (so the run does not complete), while
on an empty mapping it returns the empty move list. -/
theorem c10_none_moveto_errors_on_nonempty (library : List ImageRecord)
    (T : ℚ) (isfile : String → Bool) (uuids : List String)
    (hne : get_doubles library T ≠ []) :
    (∃ e, find_best_in_set (get_doubles library T) library none isfile uuids =
        Except.error e) ∧
    find_best_in_set ([] : List (Nat × List Nat)) library none isfile uuids =
      Except.ok [] := by
  refine ⟨⟨"TypeError: join() argument must not be None", ?_⟩, rfl⟩
  obtain ⟨p, grest, hcons⟩ := List.exists_cons_of_ne_nil hne
  obtain ⟨k, ms⟩ := p
  have hms : ms ≠ [] := by
    obtain ⟨-, h2, -, -⟩ := get_doubles_inv library T
    have := (h2 (k, ms) (by rw [hcons]; exact List.mem_cons_self _ _)).2
    simpa using this
  obtain ⟨m, ms2, hm⟩ := List.exists_cons_of_ne_nil hms
  subst hm
  have hargl : argmax ((k :: m :: ms2).map (fun x => (library.getD x default).shape)) <
      (k :: m :: ms2).length := by
    have h := (argmax_spec ((library.getD k default).shape)
      ((m :: ms2).map (fun x => (library.getD x default).shape))).1
    simpa using h
  have hmoved : (k :: m :: ms2).eraseIdx
      (argmax ((k :: m :: ms2).map (fun x => (library.getD x default).shape))) ≠ [] := by
    intro hnil
    have hlen := congrArg List.length hnil
    rw [List.length_eraseIdx] at hlen
    simp only [List.length_cons] at hlen hargl
    rw [if_pos hargl] at hlen
    simp at hlen
  obtain ⟨c0, cs, hcs⟩ := List.exists_cons_of_ne_nil hmoved
  rw [hcons, find_best_in_set, process_groups]
  rw [hcs]
  rfl

/-- C10 witness: the theorem applied to `demoLib2`, whose duplicate mapping
is non-empty. -/
theorem c10_none_moveto_errors_on_nonempty_witness :
    get_doubles demoLib2 2 ≠ [] ∧
    (∃ e, find_best_in_set (get_doubles demoLib2 2) demoLib2 none
        (fun _ => false) [] = Except.error e) ∧
    find_best_in_set ([] : List (Nat × List Nat)) demoLib2 none
      (fun _ => false) [] = Except.ok [] := by
  have h := c10_none_moveto_errors_on_nonempty demoLib2 2 (fun _ => false) []
    (by decide)
  exact ⟨by decide, h.1, h.2⟩
